import Mathlib

/-!
A shallow embedding of the `jseval` bridge (`src/legacy/jseval/__init__.py`
and `src/legacy/jseval/pyproxies.py`): bidirectional value conversion between
Python and the QJSEngine, live proxies over engine-owned arrays/objects, the
single-entry-point callback dispatcher, and the exception bridge that stitches
stack traces across host/script boundary crossings.

Modelling conventions:
* Python strings are modelled as lists of characters (`Str`), so that the
  substring test (`in`), regex-style prefix parsing and decimal rendering can
  be reasoned about directly.
* A JS number (an IEEE double) is modelled by its exact value: either a
  rational (`JSNum.fin`), `nan`, `inf` or `ninf`.  Representability limits of
  doubles are outside the model; the module under verification never
  manipulates bit patterns.
* Engine-owned values (`QJSValue`) are `JSVal`; arrays, objects, wrapper
  functions and error objects live in an explicit heap of numbered references.
* Fallible Python code (code that can raise on malformed data) is modelled
  with `Option`/`Except` results.
-/

namespace JSEval

abbrev Str := List Char

/-- `str()` rendering of a decimal digit (0 ≤ d < 10). -/
def digitCharOf (d : Nat) : Char := Char.ofNat (48 + d)

/-- Little-endian decimal digits with explicit fuel (structural recursion, so
concrete instances evaluate inside the kernel); agrees with `Nat.digits 10`
whenever the fuel suffices. -/
def natDigitsRev : Nat → Nat → List Nat
  | _, 0 => []
  | 0, _ + 1 => []
  | fuel + 1, n + 1 => ((n + 1) % 10) :: natDigitsRev fuel ((n + 1) / 10)

theorem natDigitsRev_eq_digits :
    ∀ fuel n, n ≤ fuel → natDigitsRev fuel n = Nat.digits 10 n := by
  intro fuel
  induction fuel with
  | zero =>
      intro n hn
      interval_cases n
      simp [natDigitsRev, Nat.digits_zero]
  | succ fuel ih =>
      intro n hn
      match n with
      | 0 => simp [natDigitsRev, Nat.digits_zero]
      | m + 1 =>
          rw [natDigitsRev, ih ((m + 1) / 10) (by omega),
            Nat.digits_def' (by norm_num : 1 < 10) (Nat.succ_pos m)]

/-- Python `str(n)` for a natural number: decimal digits, most significant
first. -/
def natToChars (n : Nat) : Str :=
  if n = 0 then ['0'] else ((natDigitsRev n n).map digitCharOf).reverse

/-- Numeric value of a decimal digit character. -/
def charDigitVal (c : Char) : Nat := c.toNat - 48

/-- Python `int(s)` on a string of decimal digits. -/
def charsToNat (s : Str) : Nat := Nat.ofDigits 10 ((s.map charDigitVal).reverse)

theorem charDigitVal_digitCharOf {d : Nat} (h : d < 10) :
    charDigitVal (digitCharOf d) = d := by
  interval_cases d <;> rfl

theorem isDigit_digitCharOf {d : Nat} (h : d < 10) :
    (digitCharOf d).isDigit = true := by
  interval_cases d <;> rfl

theorem charsToNat_natToChars (n : Nat) : charsToNat (natToChars n) = n := by
  by_cases h : n = 0
  · subst h; rfl
  · unfold natToChars charsToNat
    rw [if_neg h, natDigitsRev_eq_digits n n le_rfl, List.map_reverse,
      List.reverse_reverse, List.map_map]
    have : List.map (charDigitVal ∘ digitCharOf) (Nat.digits 10 n)
        = List.map id (Nat.digits 10 n) := by
      apply List.map_congr_left
      intro d hd
      exact charDigitVal_digitCharOf (Nat.digits_lt_base (by norm_num) hd)
    rw [this, List.map_id, Nat.ofDigits_digits]

theorem natToChars_injective : Function.Injective natToChars :=
  Function.LeftInverse.injective charsToNat_natToChars

theorem natToChars_all_digits (n : Nat) :
    ∀ c ∈ natToChars n, c.isDigit = true := by
  intro c hc
  unfold natToChars at hc
  by_cases h : n = 0
  · rw [if_pos h] at hc
    simp only [List.mem_singleton] at hc
    subst hc; rfl
  · rw [if_neg h, natDigitsRev_eq_digits n n le_rfl, List.mem_reverse,
      List.mem_map] at hc
    obtain ⟨d, hd, rfl⟩ := hc
    exact isDigit_digitCharOf (Nat.digits_lt_base (by norm_num) hd)

/-! ## Numbers

`JSEvaluator.buildNumber` (src/legacy/jseval/__init__.py:245-253): a JS
number decodes to a Python `int` when `int(num)` succeeds and compares equal
to the number, otherwise to the Python float itself.  `int()` truncates a
finite float toward zero and raises `ValueError` on NaN and `OverflowError`
on infinities. -/

/-- Exact value of a JS number / Python float. -/
inductive JSNum where
  | fin (q : ℚ)
  | nan
  | inf
  | ninf
deriving DecidableEq, Repr

/-- Python `int(q)` on a finite float: truncation toward zero.  (`Int.div`
rounds toward zero, and a rational's denominator is positive.) -/
def pyTrunc (q : ℚ) : ℤ := q.num.tdiv q.den

/-- Python `==` between two float values (IEEE semantics: NaN is unequal to
everything, the two infinities are equal to themselves). -/
def numEq : JSNum → JSNum → Bool
  | .fin a, .fin b => a = b
  | .inf, .inf => true
  | .ninf, .ninf => true
  | _, _ => false

/-! ## Stack frames and exceptions

A stitched stack-frame descriptor is the 4-list `[path, line, func, code]`
built at src/legacy/jseval/__init__.py:289 (same field order as Python's
`traceback.extract_tb` tuples). -/

structure Frame where
  path : Str
  line : Nat
  func : Str
  code : Str
deriving DecidableEq, Repr

/-- A Python exception class, characterised by its object identity, its
`__name__`, and the two `isinstance` tests the dispatcher performs on
instances: membership in `(AttributeError, TypeError, IndexError)` (the
`except` clause at src/legacy/jseval/__init__.py:107) and membership in
`pyproxies.JSError` (line 111). -/
structure ExcClass where
  clsId : Nat
  clsName : Str
  catchesAsBinding : Bool
  isJSErrorSub : Bool
deriving DecidableEq, Repr

/-- The `pyproxies.JSError` class itself (src/legacy/jseval/pyproxies.py:186).
-/
def jsErrorClass : ExcClass := ⟨0, "JSError".data, false, true⟩

/-- A Python exception instance: its class, its `message`, its `name`
attribute when one exists (`JSError.__init__` sets one; ordinary exceptions
have none, hence `getattr(e, 'name', e.__class__.__name__)` at line 121), and
its `oldTraceback` attribute (`getattr(e, 'oldTraceback', [])`, line 116). -/
structure PyExc where
  cls : ExcClass
  message : Str
  name : Option Str
  oldTraceback : List Frame
deriving DecidableEq, Repr

/-- `JSError(name, message)` (src/legacy/jseval/pyproxies.py:192-194). -/
def mkJSError (name message : Str) : PyExc :=
  ⟨jsErrorClass, message, some name, []⟩

/-! ## Values

`JSVal` models a `QJSValue`; compound engine values (arrays, objects,
wrapper functions, error objects) are references into an explicit heap.  An
engine error object carries the properties `buildPyError` reads from it:
`name`, `message`, the rendered `stack` (already split into lines, as
`stack.split('\n')` produces), and the `oldTraceback` list a re-thrown
bridged error carries (src/legacy/jseval/__init__.py:58-60). -/

inductive JSVal where
  | null
  | undefined
  | number (x : JSNum)
  | bool (b : Bool)
  | str (s : Str)
  | date (iso : Str)
  | regexp (pattern : Str) (caseInsensitive : Bool)
  | ref (r : Nat)
deriving DecidableEq, Repr

inductive HeapObj where
  | arr (elems : List JSVal)
  | obj (props : List (Str × JSVal)) (proto : Option Nat)
  | wrapper (id : Str)
  | errObj (name message : Str) (stackLines : List Str) (oldTraceback : List Frame)
deriving DecidableEq, Repr

abbrev Heap := List (Nat × HeapObj)

/-- A Python value as seen by the bridge.  A native callable is identified by
its `id()` (`wrapFunction` uses exactly that as its registry key); proxies
carry the engine reference they alias, a `JSObject` proxy additionally the
optional bound receiver (`instance`). -/
inductive PyValue where
  | none
  | int (n : ℤ)
  | float (x : JSNum)
  | bool (b : Bool)
  | str (s : Str)
  | datetime (iso : Str)
  | regex (pattern : Str) (ignoreCase : Bool)
  | callable (fid : Nat)
  | seq (xs : List PyValue)
  | mapping (kvs : List (Str × PyValue))
  | proxyArr (r : Nat)
  | proxyObj (r : Nat) (inst : Option Nat)
  | exc (e : PyExc)
  | other (typeName : Str)

/-- `JSEvaluator.buildNumber` (src/legacy/jseval/__init__.py:245-253):
`int(num)` truncates a finite value toward zero and raises on NaN/±Infinity;
the result is the int exactly when `num == asInt`. -/
def buildNumber : JSNum → PyValue
  | .fin q =>
      let asInt := pyTrunc q
      if q = (asInt : ℚ) then .int asInt else .float (.fin q)
  | x => .float x

/-- `pythonExceptionStore` (src/legacy/jseval/__init__.py:84): mapping from a
kind name to the most recently stored exception class.  Insertion is a dict
assignment; we model it as cons, with `List.lookup` finding the most recent
entry first. -/
abbrev ExcRegistry := List (Str × ExcClass)

/-- `JSEvaluator.codeStore`: source label to source text. -/
abbrev CodeStore := List (Str × Str)

/-! ## Direction B of the exception bridge: `buildPyError`
(src/legacy/jseval/__init__.py:262-296). -/

def INIT_SCRIPT_NAME : Str := "_js_eval_init.js".data

/-- Python's substring test `INIT_SCRIPT_NAME in line`. -/
def containsInit (l : Str) : Bool := decide (INIT_SCRIPT_NAME <:+: l)

/-- `JSEVAL_MASKED_FILES` (src/legacy/jseval/__init__.py:78-81): the two
bridge-implementation files filtered out of host tracebacks. -/
def maskedFiles : List Str :=
  ["jseval/__init__.py".data, "jseval/pyproxies.py".data]

/-- `filteredTb` (src/legacy/jseval/__init__.py:133-135): drop frames whose
path is one of the bridge's own files. -/
def filteredTb (tb : List Frame) : List Frame :=
  tb.filter (fun f => decide (f.path ∉ maskedFiles))

/-- Split a character list at the first occurrence of `c`; `Option.none` when
`c` does not occur. -/
def splitAtChar (c : Char) : Str → Option (Str × Str)
  | [] => Option.none
  | x :: xs =>
      if x = c then some ([], xs)
      else (splitAtChar c xs).map (fun p => (x :: p.1, p.2))

/-- A line of the engine's rendered `Error.prototype.stack`, already parsed:
function name, path, line number. -/
structure JSFrame where
  func : Str
  path : Str
  line : Nat
deriving DecidableEq, Repr

/-- The `JS_STACK_RE` prefix match `(?P<func>[^@]*)@(?P<path>[^:]*):` followed
by `int` applied to the greedy digit run (src/legacy/jseval/__init__.py:177,
282-287).  A line with no `@`/`:` separator makes `JS_STACK_RE.match` return
`None` (then `m.group` raises); an empty digit run makes `int` raise — both
are parse failures. -/
def parseStackLine (s : Str) : Option JSFrame :=
  match splitAtChar '@' s with
  | Option.none => Option.none
  | some (func, rest) =>
    match splitAtChar ':' rest with
    | Option.none => Option.none
    | some (path, rest2) =>
        let digits := rest2.takeWhile Char.isDigit
        if digits = [] then Option.none
        else some ⟨func, path, charsToNat digits⟩

/-- The engine's own `func@path:line` rendering of one stack line (the format
`JS_STACK_RE` is written against). -/
def renderJSLine (f : JSFrame) : Str :=
  f.func ++ '@' :: (f.path ++ ':' :: natToChars f.line)

def entryMarker : Str := "%entry".data

def globalScopeName : Str := "<global scope>".data

/-- `self.codeStore[path].split('\n')[line - 1]`
(src/legacy/jseval/__init__.py:288). -/
def sourceLine (cs : CodeStore) (path : Str) (line : Nat) : Option Str :=
  match cs.lookup path with
  | Option.none => Option.none
  | some src => (src.splitOn '\n')[line - 1]?

/-- One iteration of the loop at src/legacy/jseval/__init__.py:280-289:
relabel `%entry` as the synthetic global-scope frame, re-hydrate the source
line from the code store, produce `[path, line, func, code]`. -/
def rehydrateFrame (cs : CodeStore) (f : JSFrame) : Option Frame :=
  match sourceLine cs f.path f.line with
  | Option.none => Option.none
  | some code =>
      some ⟨f.path, f.line,
        if f.func = entryMarker then globalScopeName else f.func, code⟩

/-- The loop of src/legacy/jseval/__init__.py:280-289, with its
`stackInfo.insert(0, ...)` accumulation. -/
def buildFramesLoop (cs : CodeStore) (acc : List Frame) :
    List Str → Option (List Frame)
  | [] => some acc
  | l :: ls =>
      match parseStackLine l with
      | Option.none => Option.none
      | some jf =>
          match rehydrateFrame cs jf with
          | Option.none => Option.none
          | some fr => buildFramesLoop cs (fr :: acc) ls

/-- `if INIT_SCRIPT_NAME in stack[0]: stack = stack[1:]`
(src/legacy/jseval/__init__.py:276-277).  `str.split` never returns an empty
list, so the `[]` case is unreachable. -/
def dropLeadingInit (stack : List Str) : List Str :=
  match stack with
  | [] => []
  | l :: rest => if containsInit l then rest else l :: rest

/-- `JSEvaluator.buildPyError` (src/legacy/jseval/__init__.py:262-296), with
the error object's properties (`name`, `message`, the split `stack`, the
carried `oldTraceback`) passed in directly. -/
def buildPyError (store : ExcRegistry) (cs : CodeStore)
    (name message : Str) (stackLines : List Str) (oldTraceback : List Frame) :
    Option PyExc :=
  match buildFramesLoop cs []
      ((dropLeadingInit stackLines).takeWhile (fun l => !containsInit l)) with
  | Option.none => Option.none
  | some stackInfo =>
      let err := match store.lookup name with
        | some cls => PyExc.mk cls message Option.none []
        | Option.none => mkJSError name message
      some { err with oldTraceback := stackInfo ++ oldTraceback }

/-- `JSEvaluator.toPy` (src/legacy/jseval/__init__.py:223-243): kind dispatch
over a `QJSValue`.  `inst` is the optional bound receiver forwarded to object
proxies. -/
def toPy (store : ExcRegistry) (cs : CodeStore) (heap : Heap)
    (inst : Option Nat) : JSVal → Option PyValue
  | .null => some .none
  | .undefined => some .none
  | .number x => some (buildNumber x)
  | .bool b => some (.bool b)
  | .str s => some (.str s)
  | .date iso => some (.datetime iso)
  | .regexp pat ci => some (.regex pat ci)
  | .ref r =>
      match heap.lookup r with
      | some (.arr _) => some (.proxyArr r)
      | some (.errObj name message stackLines oldTb) =>
          (buildPyError store cs name message stackLines oldTb).map .exc
      | some (.obj _ _) => some (.proxyObj r inst)
      | some (.wrapper _) => some (.proxyObj r inst)
      | Option.none => Option.none

/-- `JSEvaluator.throwIfNecessary` (src/legacy/jseval/__init__.py:218-221). -/
def throwIfNecessary (v : PyValue) : Except PyExc PyValue :=
  match v with
  | .exc e => .error e
  | v => .ok v

/-! ## The evaluator's mutable state

`JSEvaluator.__init__` (src/legacy/jseval/__init__.py:181-203): the engine
heap, the dispatcher registry `Callback.funcs`, the engine-side wrapper cache
of `INIT_SCRIPT` (the `cache` object closed over by `buildJSWrapper`,
src/legacy/jseval/__init__.py:44-71), the label counter
`itertools.count(start=1)` and the `codeStore`. -/

structure Engine where
  nextRef : Nat
  heap : Heap
  funcs : List (Str × Nat)
  wrapperCache : List (Str × Nat)
  counter : Nat
  codeStore : CodeStore
deriving DecidableEq, Repr

/-- The state right after `__init__` ran: `INIT_SCRIPT` was evaluated through
`engine.evaluate` directly, so the code store starts empty and the counter
starts at 1. -/
def initialEngine : Engine :=
  { nextRef := 0, heap := [], funcs := [], wrapperCache := [],
    counter := 1, codeStore := [] }

/-- `'<JS string %s>' % next(self.counter)`
(src/legacy/jseval/__init__.py:213). -/
def syntheticLabel (n : Nat) : Str :=
  "<JS string ".data ++ natToChars n ++ ">".data

/-- Python's `if not path` (src/legacy/jseval/__init__.py:212): the label is
generated when `path` is falsy — omitted (`None`) or the empty string. -/
def synthReq (path : Option Str) : Bool :=
  match path with
  | Option.none => true
  | some p => p.isEmpty

/-- The bookkeeping part of `JSEvaluator.eval`
(src/legacy/jseval/__init__.py:205-215): generate a synthetic label when
`path` is falsy (omitted or empty), record `(label, code)` in the code store.
This happens before `engine.evaluate` runs. -/
def evalPrep (st : Engine) (code : Str) (path : Option Str) : Str × Engine :=
  if synthReq path then
    let label := syntheticLabel st.counter
    (label, { st with counter := st.counter + 1,
                      codeStore := (label, code) :: st.codeStore })
  else
    let label := path.getD []
    (label, { st with codeStore := (label, code) :: st.codeStore })

/-- `JSEvaluator.eval` as a state transformer, with the engine's execution of
the prepared source abstracted as an oracle `exec` (the engine's language
semantics are out of scope).  The structure shows that the code store already
holds `(label, code)` in the state `exec` receives. -/
def evalModel (exec : Engine → Str → Str → Engine × JSVal)
    (st : Engine) (code : Str) (path : Option Str) :
    Engine × Option (Except PyExc PyValue) :=
  let (label, st1) := evalPrep st code path
  let (st2, v) := exec st1 label code
  (st2, (toPy [] st2.codeStore st2.heap Option.none v).map throwIfNecessary)

/-- The engine-side wrapper factory `exports.buildJSWrapper` installed by
`INIT_SCRIPT` (src/legacy/jseval/__init__.py:66-71): for a cached id the same
wrapper function object is returned; otherwise a fresh function is created
and cached. -/
def buildJSWrapper (st : Engine) (id : Str) : JSVal × Engine :=
  match st.wrapperCache.lookup id with
  | some r => (.ref r, st)
  | Option.none =>
      let r := st.nextRef
      (.ref r, { st with nextRef := r + 1,
                         heap := (r, .wrapper id) :: st.heap,
                         wrapperCache := (id, r) :: st.wrapperCache })

/-- The source text `'_callback.buildJSWrapper(%r)' % identifier`. -/
def wrapCallCode (identifier : Str) : Str :=
  "_callback.buildJSWrapper(".data ++ identifier ++ ")".data

/-- `JSEvaluator.wrapFunction` (src/legacy/jseval/__init__.py:331-336): the
registry key is `str(id(func))`; the callable is recorded in
`Callback.funcs`, then the engine-side factory is evaluated with that key
(through `self.eval`, which burns a synthetic label and records the snippet
in the code store). -/
def wrapFunction (st : Engine) (fid : Nat) : JSVal × Engine :=
  let identifier := natToChars fid
  let st1 := { st with funcs := (identifier, fid) :: st.funcs }
  let (_, st2) := evalPrep st1 (wrapCallCode identifier) Option.none
  buildJSWrapper st2 identifier

/-! ## Direction Python → JS: `toJS` (src/legacy/jseval/__init__.py:298-329)

`heapArrPush` models the effect of `JSArray.extend` (per-element
`insert(len, v)`, i.e. `splice(len, 0, v)`, an append); `heapObjSet` models
`JSObject.update` (per-key `setProperty`). -/

def heapArrPush (h : Heap) (r : Nat) (v : JSVal) : Heap :=
  h.map fun p =>
    if p.1 = r then
      (p.1, match p.2 with
            | .arr elems => .arr (elems ++ [v])
            | o => o)
    else p

def propsSet (props : List (Str × JSVal)) (k : Str) (v : JSVal) :
    List (Str × JSVal) :=
  if props.any (fun p => p.1 == k) then
    props.map (fun p => if p.1 == k then (p.1, v) else p)
  else props ++ [(k, v)]

def heapObjSet (h : Heap) (r : Nat) (k : Str) (v : JSVal) : Heap :=
  h.map fun p =>
    if p.1 = r then
      (p.1, match p.2 with
            | .obj props proto => .obj (propsSet props k v) proto
            | o => o)
    else p

/-- `"Cannot convert object of type '%s' to a JS value" % type(value)`.
The Python `type().__name__` of each model constructor. -/
def pyTypeName : PyValue → Str
  | .none => "NoneType".data
  | .int _ => "int".data
  | .float _ => "float".data
  | .bool _ => "bool".data
  | .str _ => "str".data
  | .datetime _ => "datetime.datetime".data
  | .regex _ _ => "SRE_Pattern".data
  | .callable _ => "function".data
  | .seq _ => "list".data
  | .mapping _ => "dict".data
  | .proxyArr _ => "JSArray".data
  | .proxyObj _ _ => "JSObject".data
  | .exc e => e.cls.clsName
  | .other t => t

def convErrMsg (v : PyValue) : Str :=
  "Cannot convert object of type ".data ++ pyTypeName v
    ++ " to a JS value".data

mutual

/-- `JSEvaluator.toJS` (src/legacy/jseval/__init__.py:298-329).  The source is
a chain of type probes executed in order; the model's constructors are
disjoint, so the chain collapses to a case split (`toScriptSpecOrder` below
restores the explicit probe order and is proven equal). -/
def toJS (st : Engine) : PyValue → Except Str (JSVal × Engine)
  | .proxyArr r => .ok (.ref r, st)
  | .proxyObj r _ => .ok (.ref r, st)
  | .none => .ok (.null, st)
  | .int n => .ok (.number (.fin n), st)
  | .float x => .ok (.number x, st)
  | .bool b => .ok (.bool b, st)
  | .str s => .ok (.str s, st)
  | .callable fid => .ok (wrapFunction st fid)
  | .seq xs =>
      let r := st.nextRef
      let st1 := { st with nextRef := r + 1, heap := (r, .arr []) :: st.heap }
      (toJSElems st1 r xs).map (fun st2 => (.ref r, st2))
  | .mapping kvs =>
      let r := st.nextRef
      let st1 := { st with nextRef := r + 1,
                           heap := (r, .obj [] Option.none) :: st.heap }
      (toJSEntries st1 r kvs).map (fun st2 => (.ref r, st2))
  | .datetime iso => .ok (.date iso, st)
  | v => .error (convErrMsg v)

/-- `obj.extend(value)`: convert each element, append it to the new array. -/
def toJSElems (st : Engine) (r : Nat) : List PyValue → Except Str Engine
  | [] => .ok st
  | x :: xs => do
      let (j, st1) ← toJS st x
      toJSElems { st1 with heap := heapArrPush st1.heap r j } r xs

/-- `obj.update(value)`: convert each value, set it on the new object. -/
def toJSEntries (st : Engine) (r : Nat) :
    List (Str × PyValue) → Except Str Engine
  | [] => .ok st
  | kv :: kvs => do
      let (j, st1) ← toJS st kv.2
      toJSEntries { st1 with heap := heapObjSet st1.heap r kv.1 j } r kvs

end

/-! ### The probes `toJS` performs, in source order

These mirror the Python type tests on the model.  Several overlap — a
`JSObject` proxy is callable and mapping-like, a `JSArray` proxy and a string
are sequence-like — which is why the order of the probes matters. -/

/-- `isinstance(value, pyproxies.JSValue)`. -/
def isJSProxy : PyValue → Bool
  | .proxyArr _ => true
  | .proxyObj _ _ => true
  | _ => false

/-- `value.val` of a proxy. -/
def proxyRef : PyValue → Option Nat
  | .proxyArr r => some r
  | .proxyObj r _ => some r
  | _ => Option.none

/-- `value is None`. -/
def isNonePy : PyValue → Bool
  | .none => true
  | _ => false

/-- `QJSValue(value)` under `utils.suppress(TypeError)`: succeeds exactly for
numbers, strings and booleans (src/legacy/jseval/__init__.py:310-312); `None`
was already replaced by `QJSValue.NullValue` at that point. -/
def qjsPrim : PyValue → Option JSVal
  | .none => some .null
  | .int n => some (.number (.fin n))
  | .float x => some (.number x)
  | .bool b => some (.bool b)
  | .str s => some (.str s)
  | _ => Option.none

/-- Python `callable(value)`: native callables, and `JSObject` proxies (the
class defines `__call__`). -/
def isCallablePy : PyValue → Bool
  | .callable _ => true
  | .proxyObj _ _ => true
  | _ => false

/-- `isinstance(value, collections.Sequence)`: lists/tuples, strings, and
`JSArray` proxies (`JSArray` is a `MutableSequence`). -/
def isSequencePy : PyValue → Bool
  | .seq _ => true
  | .str _ => true
  | .proxyArr _ => true
  | _ => false

/-- `isinstance(value, collections.Mapping)`: dicts and `JSObject` proxies
(`JSObject` is a `MutableMapping`). -/
def isMappingPy : PyValue → Bool
  | .mapping _ => true
  | .proxyObj _ _ => true
  | _ => false

/-- `isinstance(value, datetime.datetime)`. -/
def isDatetimePy : PyValue → Bool
  | .datetime _ => true
  | _ => false

/-- Payload projections used by the spec-side chain (defaults are never
reached under the corresponding guards). -/
def callableId : PyValue → Nat
  | .callable fid => fid
  | _ => 0

def seqElems : PyValue → List PyValue
  | .seq xs => xs
  | _ => []

def mapEntries : PyValue → List (Str × PyValue)
  | .mapping kvs => kvs
  | _ => []

def datetimeISO : PyValue → Str
  | .datetime iso => iso
  | _ => []

/-- The encoding order of spec §4.2, written as an explicit chain of the
probes above: (a) proxy → unwrap, no re-encoding; (b) null; (c) primitive;
(d) callable → function-wrap path; (e) ordered-sequence-like and not
mapping-like → new array populated element-wise; (f) mapping-like → new
object populated key/value-wise; (g) date/time → script date from ISO text;
otherwise a type-conversion error naming the host type. -/
def toScriptSpecOrder (st : Engine) (v : PyValue) :
    Except Str (JSVal × Engine) :=
  match proxyRef v with
  | some r => .ok (.ref r, st)
  | Option.none =>
    if isNonePy v then .ok (.null, st)
    else
      match qjsPrim v with
      | some j => .ok (j, st)
      | Option.none =>
        if isCallablePy v then .ok (wrapFunction st (callableId v))
        else if isSequencePy v && !isMappingPy v then
          let r := st.nextRef
          let st1 := { st with nextRef := r + 1,
                               heap := (r, .arr []) :: st.heap }
          (toJSElems st1 r (seqElems v)).map (fun st2 => (.ref r, st2))
        else if isMappingPy v then
          let r := st.nextRef
          let st1 := { st with nextRef := r + 1,
                               heap := (r, .obj [] Option.none) :: st.heap }
          (toJSEntries st1 r (mapEntries v)).map (fun st2 => (.ref r, st2))
        else if isDatetimePy v then .ok (.date (datetimeISO v), st)
        else .error (convErrMsg v)

/-! ## The callback dispatcher (src/legacy/jseval/__init__.py:89-131)

A registered native callable is modelled by the outcomes of the two call
interpretations the dispatcher may attempt on a marshalled argument list:
strategy (1), `func(*args[:-1], **dict(args[-1].iteritems()))` — whose
failure modes include `IndexError` (empty `args`), `AttributeError` (last
argument has no `iteritems`) and `TypeError` (keyword binding mismatch), all
raised before or during the call — and strategy (2), `func(*args)`.  A
`raised` outcome carries the exception and the host frames of
`sys.exc_info()[2]` at the catch site. -/

inductive CallOutcome where
  | ok (v : PyValue)
  | raised (e : PyExc) (tb : List Frame)

structure NativeFunc where
  kwargsInterp : List PyValue → CallOutcome
  posInterp : List PyValue → CallOutcome

inductive DispatchResult where
  | result (v : PyValue)
  | exceptionRecord (name : Str) (message : Str) (oldTraceback : List Frame)
  | uncaught (e : PyExc)

/-- The body of `Callback.callback` (src/legacy/jseval/__init__.py:100-131)
for a resolved callable and popped argument list.  Strategy (1) is tried
first; exactly an `(AttributeError, TypeError, IndexError)` failure falls
back to strategy (2).  A fallback failure is written as a tagged exception
record — recording the concrete class in the `pythonExceptionStore` unless
the failure is a reconstructed `JSError` — with name
`getattr(e, 'name', e.__class__.__name__)`, the message, and
`filteredTb(tb) + oldTraceback`.  Any other failure of strategy (1)
propagates out of the slot unrecorded. -/
def dispatch (store : ExcRegistry) (f : NativeFunc) (args : List PyValue) :
    ExcRegistry × DispatchResult :=
  match f.kwargsInterp args with
  | .ok v => (store, .result v)
  | .raised e _ =>
    if e.cls.catchesAsBinding then
      match f.posInterp args with
      | .ok v => (store, .result v)
      | .raised e2 tb =>
          let store' :=
            if e2.cls.isJSErrorSub then store
            else (e2.cls.clsName, e2.cls) :: store
          (store', .exceptionRecord (e2.name.getD e2.cls.clsName) e2.message
            (filteredTb tb ++ e2.oldTraceback))
    else (store, .uncaught e)

/-! ## Proxies (src/legacy/jseval/pyproxies.py) -/

/-- The proxy error taxonomy: `JSArray.NotFound = IndexError`,
`JSValue.NotFound = KeyError`. -/
inductive ProxyErr where
  | indexRange (idx : Int)
  | keyNotFound (k : Str)
deriving DecidableEq, Repr

/-- The reassignment `if idx < 0: idx = len(self) + idx`
(src/legacy/jseval/pyproxies.py:63-64). -/
def normIdx (length : Nat) (idx : Int) : Int :=
  if idx < 0 then length + idx else idx

/-- `JSArray._normalize` (src/legacy/jseval/pyproxies.py:62-67): a negative
index gets `len(self)` added; the (re-assigned) index must then lie in
`[0, len)` or `IndexError` is raised with it. -/
def jsarrayNormalize (length : Nat) (idx : Int) : Except ProxyErr Nat :=
  let idx1 := normIdx length idx
  if 0 ≤ idx1 ∧ idx1 < length then .ok idx1.toNat
  else .error (.indexRange idx1)

/-- `JSArray.__getitem__` (src/legacy/jseval/pyproxies.py:69-70):
`self._get(self._normalize(idx))`, where `_get(i)` is
`toPy(self.val.property(i), self.val)` and `len(self)` is the array's
`length` property.  The outer `Option` covers a dangling reference or an
undecodable element (neither occurs for a well-formed array proxy). -/
def jsarrayGetitem (store : ExcRegistry) (cs : CodeStore) (heap : Heap)
    (r : Nat) (idx : Int) : Option (Except ProxyErr PyValue) :=
  match heap.lookup r with
  | some (.arr elems) =>
      match jsarrayNormalize elems.length idx with
      | .error e => some (.error e)
      | .ok i => (elems[i]?.bind (toPy store cs heap (some r))).map .ok
  | _ => Option.none

/-- Property lookup along the prototype chain (the search both
`QJSValue.hasProperty` and `QJSValue.property` perform), with fuel.
`Option.none` = fuel ran out (the engine forbids cyclic prototype chains);
`some Option.none` = absent everywhere; `some (some v)` = found. -/
def chainLookup (heap : Heap) : Nat → Nat → Str → Option (Option JSVal)
  | 0, _, _ => Option.none
  | fuel + 1, r, k =>
      match heap.lookup r with
      | some (.obj props proto) =>
          match props.lookup k with
          | some v => some (some v)
          | Option.none =>
              match proto with
              | some p => chainLookup heap fuel p k
              | Option.none => some Option.none
      | _ => some Option.none

/-- `QJSValue.hasOwnProperty`: an own property of the object itself. -/
def hasOwn (heap : Heap) (r : Nat) (k : Str) : Bool :=
  match heap.lookup r with
  | some (.obj props _) => (props.lookup k).isSome
  | _ => false

/-- `JSObject.__getitem__` (src/legacy/jseval/pyproxies.py:135-138):
`hasProperty` consults the whole prototype chain; on success `_get` decodes
`self.val.property(key)` with the proxy itself as bound receiver, otherwise
`KeyError(key)`. -/
def jsobjectGetitem (store : ExcRegistry) (cs : CodeStore) (heap : Heap)
    (fuel : Nat) (r : Nat) (k : Str) : Option (Except ProxyErr PyValue) := do
  let found ← chainLookup heap fuel r k
  match found with
  | some v => (toPy store cs heap (some r) v).map .ok
  | Option.none => some (.error (.keyNotFound k))

def propsDelete (props : List (Str × JSVal)) (k : Str) : List (Str × JSVal) :=
  props.filter (fun p => !(p.1 == k))

/-- `JSObject.__delitem__` (src/legacy/jseval/pyproxies.py:140-143): raise
`KeyError(key)` unless `key` is an own property; only then call
`deleteProperty`, which removes the own property. -/
def jsobjectDelitem (heap : Heap) (r : Nat) (k : Str) :
    Except ProxyErr Heap :=
  if hasOwn heap r k then
    .ok (heap.map fun p =>
      if p.1 = r then
        (p.1, match p.2 with
              | .obj props proto => .obj (propsDelete props k) proto
              | o => o)
      else p)
  else .error (.keyNotFound k)

/-! ## Deep copy (src/legacy/jseval/pyproxies.py:85-86, 180-181)

`JSArray.__deepcopy__` is `[copy.deepcopy(item, memo) for item in self]`
(each `item` is the decoded element); `JSObject.__deepcopy__` builds a
`JSObjectCopy` from `(key, copy.deepcopy(value, memo))` over `iteritems()`
(the object's own enumerable properties).  `copy.deepcopy` of a decoded item
recurses into nested proxies through their `__deepcopy__`, copies host lists
and dicts element-wise, and returns immutable primitives as they are.  The
fuel bounds proxy-chasing depth: a cyclic engine structure makes the Python
original recurse without end (fresh proxies defeat the memo), which the model
renders as `Option.none`. -/

mutual

def deepcopyVal (store : ExcRegistry) (cs : CodeStore) (heap : Heap)
    (fuel : Nat) (v : PyValue) : Option PyValue :=
  match fuel, v with
  | fuel + 1, .proxyArr r =>
      (match heap.lookup r with
       | some (.arr elems) => do
           let items ← elems.mapM (toPy store cs heap (some r))
           (deepcopyElems store cs heap fuel items).map .seq
       | _ => Option.none)
  | fuel + 1, .proxyObj r _ =>
      (match heap.lookup r with
       | some (.obj props _) => do
           let items ← props.mapM
             (fun kv => (toPy store cs heap (some r) kv.2).map ((kv.1, ·)))
           (deepcopyPairs store cs heap fuel items).map .mapping
       | _ => Option.none)
  | fuel + 1, .seq xs => (deepcopyElems store cs heap fuel xs).map .seq
  | fuel + 1, .mapping kvs => (deepcopyPairs store cs heap fuel kvs).map .mapping
  | 0, .proxyArr _ => Option.none
  | 0, .proxyObj _ _ => Option.none
  | 0, .seq _ => Option.none
  | 0, .mapping _ => Option.none
  | _, v => some v
termination_by structural fuel

def deepcopyElems (store : ExcRegistry) (cs : CodeStore) (heap : Heap)
    (fuel : Nat) (xs : List PyValue) : Option (List PyValue) :=
  match fuel, xs with
  | _, [] => some []
  | 0, _ :: _ => Option.none
  | fuel + 1, x :: xs => do
      let y ← deepcopyVal store cs heap fuel x
      let ys ← deepcopyElems store cs heap fuel xs
      some (y :: ys)
termination_by structural fuel

def deepcopyPairs (store : ExcRegistry) (cs : CodeStore) (heap : Heap)
    (fuel : Nat) (kvs : List (Str × PyValue)) : Option (List (Str × PyValue)) :=
  match fuel, kvs with
  | _, [] => some []
  | 0, _ :: _ => Option.none
  | fuel + 1, (k, v) :: kvs => do
      let y ← deepcopyVal store cs heap fuel v
      let ys ← deepcopyPairs store cs heap fuel kvs
      some ((k, y) :: ys)
termination_by structural fuel

end

mutual

/-- A host value is detached when no live engine reference (proxy) occurs
anywhere inside it: a detached value shares no state with the engine heap, so
no mutation of either side can be observed through the other. -/
def detached : PyValue → Bool
  | .proxyArr _ => false
  | .proxyObj _ _ => false
  | .seq xs => detachedElems xs
  | .mapping kvs => detachedPairs kvs
  | _ => true

def detachedElems : List PyValue → Bool
  | [] => true
  | x :: xs => detached x && detachedElems xs

def detachedPairs : List (Str × PyValue) → Bool
  | [] => true
  | kv :: kvs => detached kv.2 && detachedPairs kvs

end

/-! ## Python `==` on primitive values

Used to state the round-trip property.  Numeric values (ints, floats, bools)
compare by value across types — `3 == 3.0` and `True == 1` are Python truths
— with IEEE semantics on floats: NaN compares unequal to everything,
including itself. -/

def numValue : PyValue → Option JSNum
  | .int n => some (.fin n)
  | .float x => some x
  | .bool b => some (.fin (if b then 1 else 0))
  | _ => Option.none

/-- Python `==` restricted to the primitive values of the round-trip claim
(None, numbers, booleans, strings). -/
def pyEq (a b : PyValue) : Bool :=
  match numValue a, numValue b with
  | some x, some y => numEq x y
  | _, _ =>
    match a, b with
    | .str s, .str t => s == t
    | .none, .none => true
    | _, _ => false

/-- The primitives the round-trip claim quantifies over. -/
def isPrimitive : PyValue → Bool
  | .none => true
  | .int _ => true
  | .float _ => true
  | .bool _ => true
  | .str _ => true
  | _ => false

/-- `decode(encode(v))`: push a host value through `toJS` and decode the
resulting engine value with `toPy`. -/
def roundTrip (st : Engine) (store : ExcRegistry) (cs : CodeStore)
    (v : PyValue) : Option PyValue :=
  match toJS st v with
  | .ok (j, st1) => toPy store cs st1.heap Option.none j
  | .error _ => Option.none

/-! # Theorems -/

/-- C5: wrapping the same native callable twice yields script-side function
references the engine's identity comparison (reference equality on function
objects) reports equal: the registry key is `str(id(func))` both times, and
`buildJSWrapper` caches and returns the same wrapper for a repeated key. -/
theorem wrapFunction_idempotent (st : Engine) (fid : Nat) :
    (wrapFunction (wrapFunction st fid).2 fid).1 = (wrapFunction st fid).1 := by
  unfold wrapFunction evalPrep buildJSWrapper
  cases h : st.wrapperCache.lookup (natToChars fid) <;>
    simp [h, List.lookup, synthReq]

/-- C6: `toJS` attempts its conversions in exactly the order of spec §4.2:
(a) proxy unwrap without re-encoding, (b) null, (c) engine primitive,
(d) function-wrap path, (e) non-mapping ordered sequence → new array
populated element-wise, (f) mapping → new object populated key/value-wise,
(g) date/time → script date from an ISO string, otherwise a type-conversion
error naming the unsupported host type (`toScriptSpecOrder` spells out that
chain; `toJS` is the source translation). -/
theorem toJS_encoding_order (st : Engine) (v : PyValue) :
    toJS st v = toScriptSpecOrder st v := by
  cases v <;> rfl

/-- C4: the dispatcher first attempts the keyword interpretation (all but the
last argument positional, the last unpacked as keyword arguments); exactly
when that attempt raises one of the binding-failure kinds
`(AttributeError, TypeError, IndexError)` does it fall back to the purely
positional call — in both the success case and the non-binding-failure case
the positional interpretation is never consulted (the result is independent
of it), and a failure of the fallback call becomes the tagged exception
record, the only produced error channel. -/
theorem dispatch_binding_fallback (store : ExcRegistry) (f : NativeFunc)
    (args : List PyValue) :
    (∀ v, f.kwargsInterp args = .ok v →
      ∀ g, dispatch store ⟨f.kwargsInterp, g⟩ args = (store, .result v)) ∧
    (∀ e tb, f.kwargsInterp args = .raised e tb →
      (e.cls.catchesAsBinding = false →
        ∀ g, dispatch store ⟨f.kwargsInterp, g⟩ args = (store, .uncaught e)) ∧
      (e.cls.catchesAsBinding = true →
        (∀ v, f.posInterp args = .ok v →
          dispatch store f args = (store, .result v)) ∧
        (∀ e2 tb2, f.posInterp args = .raised e2 tb2 →
          dispatch store f args =
            ((if e2.cls.isJSErrorSub then store
              else (e2.cls.clsName, e2.cls) :: store),
             .exceptionRecord (e2.name.getD e2.cls.clsName) e2.message
               (filteredTb tb2 ++ e2.oldTraceback))))) := by
  refine ⟨fun v hv g => ?_, fun e tb he => ⟨fun hb g => ?_, fun hb => ⟨fun v hv => ?_, fun e2 tb2 h2 => ?_⟩⟩⟩
  · simp [dispatch, hv]
  · simp [dispatch, he, hb]
  · simp [dispatch, he, hb, hv]
  · simp [dispatch, he, hb, h2]

/-- C4 witness: a callable whose keyword interpretation raises a `TypeError`
(binding style) and whose positional interpretation succeeds. -/
theorem dispatch_binding_fallback_witness :
    dispatch [] ⟨fun _ => .raised ⟨⟨1, "TypeError".data, true, false⟩, [], Option.none, []⟩ [],
                 fun _ => .ok (.int 7)⟩ []
      = ([], .result (.int 7)) := by
  exact ((dispatch_binding_fallback []
    ⟨fun _ => .raised ⟨⟨1, "TypeError".data, true, false⟩, [], Option.none, []⟩ [],
     fun _ => .ok (.int 7)⟩ []).2 _ [] rfl).2 rfl |>.1 (.int 7) rfl

/-- C2: a host-defined exception of kind `K` with message `m` raised by the
fallback call is written out as a tagged record carrying `K`'s class name and
`m`, and `K` itself is recorded in the `pythonExceptionStore` under that
name (skipped when the failure is a reconstructed `JSError`); a later
`buildPyError` for that record therefore reconstructs an exception of the
concrete kind `K` with message `m`, not the generic bridged kind. -/
theorem exception_kind_fidelity (store : ExcRegistry) (f : NativeFunc)
    (args : List PyValue) (e0 e : PyExc) (tb0 tb : List Frame)
    (h1 : f.kwargsInterp args = .raised e0 tb0)
    (hb : e0.cls.catchesAsBinding = true)
    (h2 : f.posInterp args = .raised e tb) :
    (e.cls.isJSErrorSub = false → e.name = Option.none →
      dispatch store f args
        = ((e.cls.clsName, e.cls) :: store,
           .exceptionRecord e.cls.clsName e.message
             (filteredTb tb ++ e.oldTraceback)) ∧
      (∀ cs lines oldTb err,
        buildPyError ((dispatch store f args).1) cs e.cls.clsName e.message
            lines oldTb = some err →
        err.cls = e.cls ∧ err.message = e.message ∧
        err.cls.isJSErrorSub = false)) ∧
    (e.cls.isJSErrorSub = true → (dispatch store f args).1 = store) := by
  constructor
  · intro hjs hname
    have hd : dispatch store f args
        = ((e.cls.clsName, e.cls) :: store,
           .exceptionRecord e.cls.clsName e.message
             (filteredTb tb ++ e.oldTraceback)) := by
      simp [dispatch, h1, hb, h2, hjs, hname]
    refine ⟨hd, fun cs lines oldTb err hbuild => ?_⟩
    rw [hd] at hbuild
    simp only [buildPyError, List.lookup_cons_self] at hbuild
    cases hfl : buildFramesLoop cs []
        ((dropLeadingInit lines).takeWhile fun l => !containsInit l) with
    | none => simp [hfl] at hbuild
    | some frs =>
        simp only [hfl] at hbuild
        have hb2 : PyExc.mk e.cls e.message Option.none (frs ++ oldTb) = err :=
          Option.some.inj hbuild
        subst hb2
        exact ⟨rfl, rfl, hjs⟩
  · intro hjs
    simp [dispatch, h1, hb, h2, hjs]

/-- C2 witness: a `DomainError`-like kind with message `"x"` raised by the
fallback call round-trips through the record and `buildPyError` with its
concrete class and message intact. -/
theorem exception_kind_fidelity_witness :
    ∃ err, buildPyError
        ((dispatch []
          ⟨fun _ => .raised ⟨⟨1, "TypeError".data, true, false⟩, [], Option.none, []⟩ [],
           fun _ => .raised ⟨⟨7, "DomainError".data, false, false⟩, "x".data, Option.none, []⟩ []⟩
          []).1)
        [] "DomainError".data "x".data [] [] = some err ∧
      err.cls = ⟨7, "DomainError".data, false, false⟩ ∧
      err.message = "x".data := by
  have h := exception_kind_fidelity []
    ⟨fun _ => .raised ⟨⟨1, "TypeError".data, true, false⟩, [], Option.none, []⟩ [],
     fun _ => .raised ⟨⟨7, "DomainError".data, false, false⟩, "x".data, Option.none, []⟩ []⟩
    [] ⟨⟨1, "TypeError".data, true, false⟩, [], Option.none, []⟩
    ⟨⟨7, "DomainError".data, false, false⟩, "x".data, Option.none, []⟩
    [] [] rfl rfl rfl
  obtain ⟨hmain, -⟩ := h
  obtain ⟨-, hrec⟩ := hmain rfl rfl
  have hb : buildPyError
      ((dispatch []
        ⟨fun _ => .raised ⟨⟨1, "TypeError".data, true, false⟩, [], Option.none, []⟩ [],
         fun _ => .raised ⟨⟨7, "DomainError".data, false, false⟩, "x".data, Option.none, []⟩ []⟩
        []).1)
      [] "DomainError".data "x".data [] []
      = some ⟨⟨7, "DomainError".data, false, false⟩, "x".data, Option.none, []⟩ := rfl
  obtain ⟨hc, hm, -⟩ := hrec [] [] [] _ hb
  exact ⟨_, hb, hc, hm⟩

/-- C1 counterexample: as literally stated the round trip fails for NaN —
`decode(encode(NaN))` is a NaN floating value, but Python's `==` (IEEE
equality) reports NaN unequal to itself, so `decode(encode(v)) == v` is
false at `v = float('nan')`. -/
theorem roundTrip_nan_counterexample :
    (roundTrip initialEngine [] [] (.float .nan)).map
        (fun w => pyEq w (.float .nan)) = some false := rfl

theorem pyTrunc_intCast (n : ℤ) : pyTrunc ((n : ℤ) : ℚ) = n := by
  simp [pyTrunc, Rat.num_intCast, Rat.den_intCast]

theorem buildNumber_intCast (n : ℤ) : buildNumber (.fin ((n : ℤ) : ℚ)) = .int n := by
  simp only [buildNumber]
  rw [pyTrunc_intCast]
  simp

/-- C1 (amended): for every primitive host value `v` other than a NaN float,
`decode(encode(v)) == v` holds — integers, booleans, strings, null, the
infinities, non-integral floats, and integral floats (which decode to the
`==`-equal host integer, e.g. `decode(encode(3.0))` is the integer 3 while
`decode(encode(3.5))` is the float 3.5); a NaN float round-trips to a NaN
floating value (not an error), which `==` alone cannot confirm since NaN is
unequal to itself. -/
theorem roundTrip_primitive (st : Engine) (store : ExcRegistry)
    (cs : CodeStore) :
    (∀ v, isPrimitive v = true → v ≠ .float .nan →
      ∃ w, roundTrip st store cs v = some w ∧ pyEq w v = true) ∧
    (roundTrip st store cs (.float .nan) = some (.float .nan)) ∧
    (roundTrip st store cs (.float (.fin 3)) = some (.int 3)) ∧
    (roundTrip st store cs (.float (.fin (mkRat 7 2)))
      = some (.float (.fin (mkRat 7 2)))) := by
  refine ⟨?_, rfl, rfl, rfl⟩
  intro v hp hne
  cases v with
  | none => exact ⟨.none, rfl, rfl⟩
  | int n =>
      refine ⟨.int n, ?_, by simp [pyEq, numValue, numEq]⟩
      have h1 : roundTrip st store cs (.int n) = some (buildNumber (.fin (n : ℚ))) := rfl
      rw [h1, buildNumber_intCast]
  | float x =>
      cases x with
      | fin q =>
          have h1 : roundTrip st store cs (.float (.fin q))
              = some (buildNumber (.fin q)) := rfl
          have h2 : buildNumber (.fin q)
              = if q = ((pyTrunc q : ℤ) : ℚ) then PyValue.int (pyTrunc q)
                else PyValue.float (.fin q) := by
            simp only [buildNumber]
          by_cases hq : q = ((pyTrunc q : ℤ) : ℚ)
          · refine ⟨.int (pyTrunc q), ?_, ?_⟩
            · rw [h1, h2, if_pos hq]
            · simp [pyEq, numValue, numEq, hq.symm]
          · refine ⟨.float (.fin q), ?_, by simp [pyEq, numValue, numEq]⟩
            rw [h1, h2, if_neg hq]
      | nan => exact absurd rfl hne
      | inf => exact ⟨.float .inf, rfl, rfl⟩
      | ninf => exact ⟨.float .ninf, rfl, rfl⟩
  | bool b => cases b <;> exact ⟨_, rfl, rfl⟩
  | str s => exact ⟨.str s, rfl, by simp [pyEq, numValue]⟩
  | datetime iso => simp [isPrimitive] at hp
  | regex p i => simp [isPrimitive] at hp
  | callable fid => simp [isPrimitive] at hp
  | seq xs => simp [isPrimitive] at hp
  | mapping kvs => simp [isPrimitive] at hp
  | proxyArr r => simp [isPrimitive] at hp
  | proxyObj r i => simp [isPrimitive] at hp
  | exc e => simp [isPrimitive] at hp
  | other t => simp [isPrimitive] at hp

/-- C1 witness: the amended round trip at the concrete inputs `True` and
`3.5`. -/
theorem roundTrip_primitive_witness :
    (∃ w, roundTrip initialEngine [] [] (.bool true) = some w ∧
      pyEq w (.bool true) = true) ∧
    (∃ w, roundTrip initialEngine [] [] (.float (.fin (mkRat 7 2))) = some w ∧
      pyEq w (.float (.fin (mkRat 7 2))) = true) :=
  ⟨(roundTrip_primitive initialEngine [] []).1 (.bool true) rfl (fun h => nomatch h),
   (roundTrip_primitive initialEngine [] []).1 (.float (.fin (mkRat 7 2))) rfl
     (fun h => nomatch h)⟩

/-- C7: array-proxy index access normalizes a negative index by adding the
length; after normalization, access succeeds exactly when the normalized
index lies in `[0, length)` and otherwise raises the index-range error
(`IndexError`, carrying the normalized index).  In particular, over the array
`[1, 2, 3, 4]` index `-2` yields `3` and index `-5` raises the index-range
error. -/
theorem jsarray_negative_indexing :
    (∀ (store : ExcRegistry) (cs : CodeStore) (heap : Heap) (r : Nat)
        (elems : List JSVal) (idx : Int),
        heap.lookup r = some (.arr elems) →
        (∀ v ∈ elems, (toPy store cs heap (some r) v).isSome = true) →
        ((∃ w, jsarrayGetitem store cs heap r idx = some (.ok w)) ↔
          0 ≤ normIdx elems.length idx ∧
            normIdx elems.length idx < (elems.length : Int)) ∧
        (¬(0 ≤ normIdx elems.length idx ∧
            normIdx elems.length idx < (elems.length : Int)) →
          jsarrayGetitem store cs heap r idx
            = some (.error (.indexRange (normIdx elems.length idx))))) ∧
    (jsarrayGetitem [] [] [(0, .arr [.number (.fin 1), .number (.fin 2),
        .number (.fin 3), .number (.fin 4)])] 0 (-2) = some (.ok (.int 3))) ∧
    (jsarrayGetitem [] [] [(0, .arr [.number (.fin 1), .number (.fin 2),
        .number (.fin 3), .number (.fin 4)])] 0 (-5)
      = some (.error (.indexRange (-1)))) := by
  refine ⟨?_, rfl, rfl⟩
  intro store cs heap r elems idx hlook hdec
  have hget : jsarrayGetitem store cs heap r idx
      = match jsarrayNormalize elems.length idx with
        | .error e => some (.error e)
        | .ok i => (elems[i]?.bind (toPy store cs heap (some r))).map .ok := by
    unfold jsarrayGetitem
    rw [hlook]
  by_cases hin : 0 ≤ normIdx elems.length idx ∧
      normIdx elems.length idx < (elems.length : Int)
  · have hnorm : jsarrayNormalize elems.length idx
        = .ok (normIdx elems.length idx).toNat := by
      unfold jsarrayNormalize
      simp only [if_pos hin]
    rw [hnorm] at hget
    have hlt : (normIdx elems.length idx).toNat < elems.length := by omega
    have hv : elems[(normIdx elems.length idx).toNat]?
        = some elems[(normIdx elems.length idx).toNat] :=
      List.getElem?_eq_getElem hlt
    have hvmem : elems[(normIdx elems.length idx).toNat] ∈ elems :=
      List.getElem_mem hlt
    obtain ⟨w, hw⟩ := Option.isSome_iff_exists.mp (hdec _ hvmem)
    refine ⟨⟨fun _ => hin, fun _ => ⟨w, ?_⟩⟩, fun hc => absurd hin hc⟩
    rw [hget]
    simp [hv, hw]
  · have hnorm : jsarrayNormalize elems.length idx
        = .error (.indexRange (normIdx elems.length idx)) := by
      unfold jsarrayNormalize
      simp only [if_neg hin]
    rw [hnorm] at hget
    refine ⟨⟨fun ⟨w, hw⟩ => ?_, fun h => absurd h hin⟩, fun _ => hget⟩
    rw [hget] at hw
    exact absurd (Option.some.inj hw) (fun h => nomatch h)

/-- C7 witness: the generic normalization law applied to the concrete proxy
over `[1, 2, 3, 4]` at index `-2`. -/
theorem jsarray_negative_indexing_witness :
    ∃ w, jsarrayGetitem [] [] [(0, .arr [.number (.fin 1), .number (.fin 2),
        .number (.fin 3), .number (.fin 4)])] 0 (-2) = some (.ok w) := by
  have h := (jsarray_negative_indexing.1 [] []
    [(0, .arr [.number (.fin 1), .number (.fin 2), .number (.fin 3),
       .number (.fin 4)])] 0
    [.number (.fin 1), .number (.fin 2), .number (.fin 3), .number (.fin 4)]
    (-2) rfl (by decide)).1
  exact h.mpr (by decide)

/-- C10: reading through an object proxy succeeds exactly when the property
is found anywhere along the prototype chain (`hasProperty`), while deletion
demands an own property (`hasOwnProperty`): an inherited-only key can be read
but every deletion attempt raises the key-not-found error — the error is
raised before `deleteProperty` is called, so the underlying object is
untouched. -/
theorem jsobject_inherited_keys (store : ExcRegistry) (cs : CodeStore)
    (heap : Heap) (fuel : Nat) (r : Nat) (k : Str) (res : Option JSVal)
    (hwalk : chainLookup heap fuel r k = some res) :
    (∀ v, res = some v →
      jsobjectGetitem store cs heap fuel r k
        = (toPy store cs heap (some r) v).map .ok) ∧
    (res = Option.none →
      jsobjectGetitem store cs heap fuel r k
        = some (.error (.keyNotFound k))) ∧
    (hasOwn heap r k = false →
      jsobjectDelitem heap r k = .error (.keyNotFound k)) ∧
    (hasOwn heap r k = true → ∃ h2, jsobjectDelitem heap r k = .ok h2) := by
  refine ⟨?_, ?_, ?_, ?_⟩
  · intro v hv
    subst hv
    unfold jsobjectGetitem
    rw [hwalk]
    rfl
  · intro hv
    subst hv
    unfold jsobjectGetitem
    rw [hwalk]
    rfl
  · intro hown
    unfold jsobjectDelitem
    rw [if_neg (by simp [hown])]
  · intro hown
    exact ⟨_, by unfold jsobjectDelitem; rw [if_pos (by simp [hown])]⟩

/-- The C10 witness heap: object 0 has an empty own-property set and
prototype 1; object 1 owns property `p`. -/
def c10Heap : Heap :=
  [(0, .obj [] (some 1)), (1, .obj [("p".data, .str "v".data)] Option.none)]

/-- C10 witness: on `c10Heap`, key `p` is readable through inheritance from
proxy 0 but deleting it from proxy 0 raises the key-not-found error. -/
theorem jsobject_inherited_keys_witness :
    jsobjectGetitem [] [] c10Heap 2 0 "p".data
      = some (.ok (.str "v".data)) ∧
    jsobjectDelitem c10Heap 0 "p".data
      = .error (.keyNotFound "p".data) := by
  have h := jsobject_inherited_keys [] [] c10Heap 2 0 "p".data
    (some (.str "v".data)) rfl
  exact ⟨(h.1 _ rfl).trans rfl, h.2.2.1 rfl⟩

/-! ## C9: synthetic labels and the source store -/

structure EvalReq where
  code : Str
  path : Option Str

/-- A run of consecutive `eval` calls on one evaluator: each call does its
bookkeeping (`evalPrep`) and then hands the prepared state to the engine
(`exec`); the engine may re-enter the evaluator (nested evals, function
wrapping), so `exec` is an arbitrary state transformer.  Records each call's
`(path, label)`. -/
def runEvals (exec : Engine → Str → Str → Engine × JSVal) :
    Engine → List EvalReq → List (Option Str × Str) × Engine
  | st, [] => ([], st)
  | st, req :: reqs =>
      let (label, st1) := evalPrep st req.code req.path
      let (st2, _) := exec st1 label req.code
      let (rest, stF) := runEvals exec st2 reqs
      ((req.path, label) :: rest, stF)

theorem syntheticLabel_injective : Function.Injective syntheticLabel := by
  intro a b h
  unfold syntheticLabel at h
  rw [List.append_assoc, List.append_assoc] at h
  exact natToChars_injective
    (List.append_cancel_right (List.append_cancel_left h))

theorem evalPrep_counter_synth (st : Engine) (code : Str) (path : Option Str)
    (h : synthReq path = true) :
    (evalPrep st code path).1 = syntheticLabel st.counter ∧
    (evalPrep st code path).2.counter = st.counter + 1 := by
  unfold evalPrep
  rw [if_pos h]
  exact ⟨rfl, rfl⟩

theorem evalPrep_counter_le (st : Engine) (code : Str) (path : Option Str) :
    st.counter ≤ (evalPrep st code path).2.counter := by
  unfold evalPrep
  by_cases h : synthReq path = true
  · rw [if_pos h]; exact Nat.le_succ _
  · rw [if_neg h]

theorem runEvals_counter_le (exec : Engine → Str → Str → Engine × JSVal)
    (hexec : ∀ st l c, st.counter ≤ (exec st l c).1.counter) :
    ∀ (reqs : List EvalReq) (st : Engine),
      st.counter ≤ (runEvals exec st reqs).2.counter := by
  intro reqs
  induction reqs with
  | nil => intro st; exact le_rfl
  | cons req reqs ih =>
      intro st
      calc st.counter
          ≤ (evalPrep st req.code req.path).2.counter :=
            evalPrep_counter_le st req.code req.path
        _ ≤ (exec (evalPrep st req.code req.path).2
              (evalPrep st req.code req.path).1 req.code).1.counter :=
            hexec _ _ _
        _ ≤ _ := by
            rw [runEvals]
            exact ih _

theorem runEvals_synth_label_ge (exec : Engine → Str → Str → Engine × JSVal)
    (hexec : ∀ st l c, st.counter ≤ (exec st l c).1.counter) :
    ∀ (reqs : List EvalReq) (st : Engine) (pr : Option Str × Str),
      pr ∈ (runEvals exec st reqs).1 → synthReq pr.1 = true →
      ∃ c, st.counter ≤ c ∧ pr.2 = syntheticLabel c := by
  intro reqs
  induction reqs with
  | nil => intro st pr hpr; simp [runEvals] at hpr
  | cons req reqs ih =>
      intro st pr hpr hsyn
      rw [runEvals] at hpr
      simp only [List.mem_cons] at hpr
      rcases hpr with hpr | hpr
      · subst hpr
        refine ⟨st.counter, le_rfl, ?_⟩
        exact (evalPrep_counter_synth st req.code req.path hsyn).1
      · obtain ⟨c, hc, hlab⟩ := ih _ pr hpr hsyn
        refine ⟨c, le_trans ?_ hc, hlab⟩
        calc st.counter
            ≤ (evalPrep st req.code req.path).2.counter :=
              evalPrep_counter_le st req.code req.path
          _ ≤ _ := hexec _ _ _

/-- C9: when `path` is omitted, `eval` generates the synthetic label from the
process counter (which then strictly advances, so no two synthetic labels of
one evaluator ever coincide — the pairwise-distinctness clause), and in every
case the `(label, sourceText)` pair is in the source store of the state the
engine executes in (the lookup clause and the `evalModel` structure clause),
so re-hydration works even if execution itself fails. -/
theorem eval_label_bookkeeping (exec : Engine → Str → Str → Engine × JSVal)
    (hexec : ∀ st l c, st.counter ≤ (exec st l c).1.counter) :
    (∀ (st : Engine) (code : Str),
      (evalPrep st code Option.none).1 = syntheticLabel st.counter) ∧
    (∀ (st : Engine) (code : Str) (path : Option Str),
      ((evalPrep st code path).2.codeStore).lookup (evalPrep st code path).1
        = some code) ∧
    (∀ (st : Engine) (code : Str) (path : Option Str),
      (evalModel exec st code path).1
        = (exec (evalPrep st code path).2 (evalPrep st code path).1 code).1) ∧
    (∀ (st : Engine) (reqs : List EvalReq),
      List.Pairwise
        (fun a b => synthReq a.1 = true → synthReq b.1 = true → a.2 ≠ b.2)
        (runEvals exec st reqs).1) := by
  refine ⟨fun st code => rfl, fun st code path => ?_, fun st code path => rfl,
    fun st reqs => ?_⟩
  · unfold evalPrep
    by_cases h : synthReq path = true
    · rw [if_pos h]; exact List.lookup_cons_self
    · rw [if_neg h]; exact List.lookup_cons_self
  · induction reqs generalizing st with
    | nil => exact List.Pairwise.nil
    | cons req reqs ih =>
        rw [runEvals]
        refine List.Pairwise.cons ?_ (ih _)
        intro pr hpr hsyn hsyn2
        obtain ⟨c, hc, hlab⟩ := runEvals_synth_label_ge exec hexec reqs _ pr hpr hsyn2
        rw [(evalPrep_counter_synth st req.code req.path hsyn).1, hlab]
        intro heq
        have := syntheticLabel_injective heq
        have h1 : st.counter + 1 ≤ c := by
          calc st.counter + 1
              = (evalPrep st req.code req.path).2.counter :=
                ((evalPrep_counter_synth st req.code req.path hsyn).2).symm
            _ ≤ (exec (evalPrep st req.code req.path).2
                  (evalPrep st req.code req.path).1 req.code).1.counter :=
                hexec _ _ _
            _ ≤ c := hc
        omega

/-- C9 witness: two label-less evals on a fresh evaluator (with an engine
oracle that leaves the state unchanged) receive the distinct labels
`<JS string 1>` and `<JS string 2>`, both recorded in the source store. -/
theorem eval_label_bookkeeping_witness :
    (runEvals (fun st _ _ => (st, .undefined)) initialEngine
        [⟨"1+1".data, Option.none⟩, ⟨"2+2".data, Option.none⟩]).1
      = [(Option.none, "<JS string 1>".data),
         (Option.none, "<JS string 2>".data)] ∧
    "<JS string 1>".data ≠ "<JS string 2>".data ∧
    ((evalPrep initialEngine "1+1".data Option.none).2.codeStore).lookup
        "<JS string 1>".data = some "1+1".data := by
  have h := eval_label_bookkeeping (fun st _ _ => (st, .undefined))
    (fun _ _ _ => le_rfl)
  have hpw := h.2.2.2 initialEngine
    [⟨"1+1".data, Option.none⟩, ⟨"2+2".data, Option.none⟩]
  have hres : (runEvals (fun st _ _ => (st, .undefined)) initialEngine
      [⟨"1+1".data, Option.none⟩, ⟨"2+2".data, Option.none⟩]).1
      = [(Option.none, "<JS string 1>".data),
         (Option.none, "<JS string 2>".data)] := rfl
  rw [hres] at hpw
  refine ⟨hres, ?_, ?_⟩
  · have := List.rel_of_pairwise_cons hpw (List.mem_singleton.mpr rfl)
    exact this rfl rfl
  · have h2 := h.2.1 initialEngine "1+1".data Option.none
    exact h2

/-! ## C8: deep copies are detached -/

/-- Every successful deep copy is detached, by induction on the fuel. -/
theorem deepcopy_detached_val (store : ExcRegistry) (cs : CodeStore)
    (heap : Heap) :
    ∀ fuel : Nat,
      (∀ v b, deepcopyVal store cs heap fuel v = some b →
        detached b = true) ∧
      (∀ xs ys, deepcopyElems store cs heap fuel xs = some ys →
        detachedElems ys = true) ∧
      (∀ kvs ys, deepcopyPairs store cs heap fuel kvs = some ys →
        detachedPairs ys = true) := by
  intro fuel
  induction fuel with
  | zero =>
      refine ⟨fun v b hb => ?_, fun xs ys hys => ?_, fun kvs ys hys => ?_⟩
      · cases v with
        | proxyArr r => exact absurd hb (fun h => nomatch h)
        | proxyObj r i => exact absurd hb (fun h => nomatch h)
        | seq xs => exact absurd hb (fun h => nomatch h)
        | mapping kvs => exact absurd hb (fun h => nomatch h)
        | none => rw [← Option.some.inj hb]; rfl
        | int n => rw [← Option.some.inj hb]; rfl
        | float q => rw [← Option.some.inj hb]; rfl
        | bool bb => rw [← Option.some.inj hb]; rfl
        | str s2 => rw [← Option.some.inj hb]; rfl
        | datetime iso => rw [← Option.some.inj hb]; rfl
        | regex p i => rw [← Option.some.inj hb]; rfl
        | callable fid => rw [← Option.some.inj hb]; rfl
        | exc e => rw [← Option.some.inj hb]; rfl
        | other t => rw [← Option.some.inj hb]; rfl
      · cases xs with
        | nil => rw [← Option.some.inj hys]; rfl
        | cons x xs => exact absurd hys (fun h => nomatch h)
      · cases kvs with
        | nil => rw [← Option.some.inj hys]; rfl
        | cons kv kvs =>
            obtain ⟨k, v⟩ := kv
            exact absurd hys (fun h => nomatch h)
  | succ fuel ih =>
      obtain ⟨ihv, ihe, ihp⟩ := ih
      refine ⟨fun v b hb => ?_, fun xs ys hys => ?_, fun kvs ys hys => ?_⟩
      · cases v with
        | proxyArr r =>
            rcases hlook : heap.lookup r with - | o
            all_goals rw [deepcopyVal, hlook] at hb
            · exact absurd hb (fun h => nomatch h)
            · cases o with
              | arr elems =>
                  have hb2 : (elems.mapM (toPy store cs heap (some r))).bind
                      (fun items => (deepcopyElems store cs heap fuel items).map
                        PyValue.seq) = some b := hb
                  cases hitems : elems.mapM (toPy store cs heap (some r)) with
                  | none => rw [hitems] at hb2; exact absurd hb2 (fun h => nomatch h)
                  | some items =>
                      rw [hitems] at hb2
                      have hb3 : (deepcopyElems store cs heap fuel items).map
                          PyValue.seq = some b := hb2
                      cases hys : deepcopyElems store cs heap fuel items with
                      | none => rw [hys] at hb3; exact absurd hb3 (fun h => nomatch h)
                      | some ys =>
                          rw [hys] at hb3
                          rw [← Option.some.inj hb3]
                          exact ihe items ys hys
              | obj props proto => exact absurd hb (fun h => nomatch h)
              | wrapper i => exact absurd hb (fun h => nomatch h)
              | errObj a b2 c d => exact absurd hb (fun h => nomatch h)
        | proxyObj r inst =>
            rcases hlook : heap.lookup r with - | o
            all_goals rw [deepcopyVal, hlook] at hb
            · exact absurd hb (fun h => nomatch h)
            · cases o with
              | obj props proto =>
                  have hb2 : (props.mapM (fun kv =>
                      (toPy store cs heap (some r) kv.2).map ((kv.1, ·)))).bind
                      (fun items => (deepcopyPairs store cs heap fuel items).map
                        PyValue.mapping) = some b := hb
                  cases hitems : props.mapM (fun kv =>
                      (toPy store cs heap (some r) kv.2).map ((kv.1, ·))) with
                  | none => rw [hitems] at hb2; exact absurd hb2 (fun h => nomatch h)
                  | some items =>
                      rw [hitems] at hb2
                      have hb3 : (deepcopyPairs store cs heap fuel items).map
                          PyValue.mapping = some b := hb2
                      cases hys : deepcopyPairs store cs heap fuel items with
                      | none => rw [hys] at hb3; exact absurd hb3 (fun h => nomatch h)
                      | some ys =>
                          rw [hys] at hb3
                          rw [← Option.some.inj hb3]
                          exact ihp items ys hys
              | arr elems => exact absurd hb (fun h => nomatch h)
              | wrapper i => exact absurd hb (fun h => nomatch h)
              | errObj a b2 c d => exact absurd hb (fun h => nomatch h)
        | seq xs =>
            have hb2 : (deepcopyElems store cs heap fuel xs).map PyValue.seq
                = some b := hb
            cases hys : deepcopyElems store cs heap fuel xs with
            | none => rw [hys] at hb2; exact absurd hb2 (fun h => nomatch h)
            | some ys =>
                rw [hys] at hb2
                rw [← Option.some.inj hb2]
                exact ihe xs ys hys
        | mapping kvs =>
            have hb2 : (deepcopyPairs store cs heap fuel kvs).map PyValue.mapping
                = some b := hb
            cases hys : deepcopyPairs store cs heap fuel kvs with
            | none => rw [hys] at hb2; exact absurd hb2 (fun h => nomatch h)
            | some ys =>
                rw [hys] at hb2
                rw [← Option.some.inj hb2]
                exact ihp kvs ys hys
        | none => rw [← Option.some.inj hb]; rfl
        | int n => rw [← Option.some.inj hb]; rfl
        | float q => rw [← Option.some.inj hb]; rfl
        | bool bb => rw [← Option.some.inj hb]; rfl
        | str s2 => rw [← Option.some.inj hb]; rfl
        | datetime iso => rw [← Option.some.inj hb]; rfl
        | regex p i => rw [← Option.some.inj hb]; rfl
        | callable fid => rw [← Option.some.inj hb]; rfl
        | exc e => rw [← Option.some.inj hb]; rfl
        | other t => rw [← Option.some.inj hb]; rfl
      · cases xs with
        | nil => rw [← Option.some.inj hys]; rfl
        | cons x xs =>
            have hys2 : (deepcopyVal store cs heap fuel x).bind
                (fun y => (deepcopyElems store cs heap fuel xs).bind
                  (fun ys2 => some (y :: ys2))) = some ys := hys
            cases hv : deepcopyVal store cs heap fuel x with
            | none => rw [hv] at hys2; exact absurd hys2 (fun h => nomatch h)
            | some y =>
                rw [hv] at hys2
                have hys3 : (deepcopyElems store cs heap fuel xs).bind
                    (fun ys2 => some (y :: ys2)) = some ys := hys2
                cases hrest : deepcopyElems store cs heap fuel xs with
                | none => rw [hrest] at hys3; exact absurd hys3 (fun h => nomatch h)
                | some ys2 =>
                    rw [hrest] at hys3
                    rw [← Option.some.inj hys3, detachedElems]
                    simp only [Bool.and_eq_true]
                    exact ⟨ihv x y hv, ihe xs ys2 hrest⟩
      · cases kvs with
        | nil => rw [← Option.some.inj hys]; rfl
        | cons kv kvs =>
            obtain ⟨k, v⟩ := kv
            have hys2 : (deepcopyVal store cs heap fuel v).bind
                (fun y => (deepcopyPairs store cs heap fuel kvs).bind
                  (fun ys2 => some ((k, y) :: ys2))) = some ys := hys
            cases hv : deepcopyVal store cs heap fuel v with
            | none => rw [hv] at hys2; exact absurd hys2 (fun h => nomatch h)
            | some y =>
                rw [hv] at hys2
                have hys3 : (deepcopyPairs store cs heap fuel kvs).bind
                    (fun ys2 => some ((k, y) :: ys2)) = some ys := hys2
                cases hrest : deepcopyPairs store cs heap fuel kvs with
                | none => rw [hrest] at hys3; exact absurd hys3 (fun h => nomatch h)
                | some ys2 =>
                    rw [hrest] at hys3
                    rw [← Option.some.inj hys3, detachedPairs]
                    simp only [Bool.and_eq_true]
                    exact ⟨ihv v y hv, ihp kvs ys2 hrest⟩

/-- C8: a successful `deepcopy` of an array proxy is an ordinary host list
(and of an object proxy an ordinary host dict), detached all the way down —
no engine reference survives anywhere inside the copy, so no mutation of the
copy can reach the underlying script value and no mutation of the script
value can change the already-computed copy. -/
theorem deepcopy_detached (store : ExcRegistry) (cs : CodeStore)
    (heap : Heap) (fuel : Nat) (r : Nat) (inst : Option Nat) :
    (∀ b, deepcopyVal store cs heap fuel (.proxyArr r) = some b →
      (∃ xs, b = .seq xs) ∧ detached b = true) ∧
    (∀ b, deepcopyVal store cs heap fuel (.proxyObj r inst) = some b →
      (∃ kvs, b = .mapping kvs) ∧ detached b = true) := by
  constructor
  · intro b hb
    refine ⟨?_, (deepcopy_detached_val store cs heap fuel).1 _ b hb⟩
    cases fuel with
    | zero => exact absurd hb (fun h => nomatch h)
    | succ fuel =>
        rcases hlook : heap.lookup r with - | o
        all_goals rw [deepcopyVal, hlook] at hb
        · exact absurd hb (fun h => nomatch h)
        · cases o with
          | arr elems =>
              have hb2 : (elems.mapM (toPy store cs heap (some r))).bind
                  (fun items => (deepcopyElems store cs heap fuel items).map
                    PyValue.seq) = some b := hb
              cases hitems : elems.mapM (toPy store cs heap (some r)) with
              | none => rw [hitems] at hb2; exact absurd hb2 (fun h => nomatch h)
              | some items =>
                  rw [hitems] at hb2
                  have hb3 : (deepcopyElems store cs heap fuel items).map
                      PyValue.seq = some b := hb2
                  cases hys : deepcopyElems store cs heap fuel items with
                  | none => rw [hys] at hb3; exact absurd hb3 (fun h => nomatch h)
                  | some ys => rw [hys] at hb3; exact ⟨ys, (Option.some.inj hb3).symm⟩
          | obj props proto => exact absurd hb (fun h => nomatch h)
          | wrapper i => exact absurd hb (fun h => nomatch h)
          | errObj a b2 c d => exact absurd hb (fun h => nomatch h)
  · intro b hb
    refine ⟨?_, (deepcopy_detached_val store cs heap fuel).1 _ b hb⟩
    cases fuel with
    | zero => exact absurd hb (fun h => nomatch h)
    | succ fuel =>
        rcases hlook : heap.lookup r with - | o
        all_goals rw [deepcopyVal, hlook] at hb
        · exact absurd hb (fun h => nomatch h)
        · cases o with
          | obj props proto =>
              have hb2 : (props.mapM (fun kv =>
                  (toPy store cs heap (some r) kv.2).map ((kv.1, ·)))).bind
                  (fun items => (deepcopyPairs store cs heap fuel items).map
                    PyValue.mapping) = some b := hb
              cases hitems : props.mapM (fun kv =>
                  (toPy store cs heap (some r) kv.2).map ((kv.1, ·))) with
              | none => rw [hitems] at hb2; exact absurd hb2 (fun h => nomatch h)
              | some items =>
                  rw [hitems] at hb2
                  have hb3 : (deepcopyPairs store cs heap fuel items).map
                      PyValue.mapping = some b := hb2
                  cases hys : deepcopyPairs store cs heap fuel items with
                  | none => rw [hys] at hb3; exact absurd hb3 (fun h => nomatch h)
                  | some ys => rw [hys] at hb3; exact ⟨ys, (Option.some.inj hb3).symm⟩
          | arr elems => exact absurd hb (fun h => nomatch h)
          | wrapper i => exact absurd hb (fun h => nomatch h)
          | errObj a b2 c d => exact absurd hb (fun h => nomatch h)

/-- C8 witness: deep-copying an array proxy over `["a", {k: 1}]` (a nested
object proxy inside) yields the fully detached host value
`["a", {"k": 1}]`. -/
theorem deepcopy_detached_witness :
    deepcopyVal [] [] [(0, .arr [.str "a".data, .ref 1]),
        (1, .obj [("k".data, .number (.fin 1))] Option.none)] 5 (.proxyArr 0)
      = some (.seq [.str "a".data, .mapping [("k".data, .int 1)]]) ∧
    (∃ xs, PyValue.seq [.str "a".data, .mapping [("k".data, .int 1)]]
        = PyValue.seq xs) ∧
    detached (PyValue.seq [.str "a".data, .mapping [("k".data, .int 1)]])
      = true := by
  have hb : deepcopyVal [] [] [(0, .arr [.str "a".data, .ref 1]),
      (1, .obj [("k".data, .number (.fin 1))] Option.none)] 5 (.proxyArr 0)
      = some (.seq [.str "a".data, .mapping [("k".data, .int 1)]]) := rfl
  exact ⟨hb, (deepcopy_detached [] [] [(0, .arr [.str "a".data, .ref 1]),
    (1, .obj [("k".data, .number (.fin 1))] Option.none)] 5 0 Option.none).1
    _ hb⟩

/-! ## C3: cross-boundary trace reconstruction

A script hop's rendered stack is an optional leading wrapper line (present
when the error was re-thrown by the `INIT_SCRIPT` wrapper: the `Error` is
constructed inside `newWrapper`, so the captured stack starts there) followed
by the engine's `func@path:line` renderings of the user frames, innermost
first.  A host hop contributes the `sys.exc_info()` frames captured at the
dispatcher boundary.  `chainError` composes the two bridge directions along
an arbitrarily deep alternation, exactly as the exception propagates. -/

theorem splitAtChar_append (c : Char) (pre suf : Str) (h : c ∉ pre) :
    splitAtChar c (pre ++ c :: suf) = some (pre, suf) := by
  induction pre with
  | nil => simp [splitAtChar]
  | cons x xs ih =>
      have hxc : ¬ x = c := by
        intro hx
        subst hx
        exact h (List.mem_cons_self x xs)
      have hrest : c ∉ xs := fun hm => h (List.mem_cons_of_mem x hm)
      simp [splitAtChar, hxc, ih hrest]

theorem natToChars_ne_nil (n : Nat) : natToChars n ≠ [] := by
  unfold natToChars
  by_cases h : n = 0
  · rw [if_pos h]; exact fun hh => nomatch hh
  · rw [if_neg h, natDigitsRev_eq_digits n n le_rfl]
    intro hh
    rw [List.reverse_eq_nil_iff, List.map_eq_nil_iff] at hh
    exact h (Nat.digits_eq_nil_iff_eq_zero.mp hh)

/-- `JS_STACK_RE` parses back what the engine renders, provided the function
name holds no `@` and the path no `:`. -/
theorem parseStackLine_render (f : JSFrame) (hf : '@' ∉ f.func)
    (hp : ':' ∉ f.path) : parseStackLine (renderJSLine f) = some f := by
  have h3 : (natToChars f.line).takeWhile Char.isDigit = natToChars f.line :=
    List.takeWhile_eq_self_iff.mpr (natToChars_all_digits f.line)
  unfold parseStackLine renderJSLine
  rw [splitAtChar_append '@' f.func _ hf]
  dsimp only
  rw [splitAtChar_append ':' f.path _ hp]
  dsimp only
  rw [h3, if_neg (natToChars_ne_nil f.line), charsToNat_natToChars]

/-- The path of a rendered line occurs inside the line, so a non-bootstrap
line cannot come from the bootstrap script. -/
theorem path_ne_init_of_not_containsInit (f : JSFrame)
    (h : containsInit (renderJSLine f) = false) :
    f.path ≠ INIT_SCRIPT_NAME := by
  intro heq
  have hinf : INIT_SCRIPT_NAME <:+: renderJSLine f :=
    ⟨f.func ++ ['@'], ':' :: natToChars f.line, by
      simp [renderJSLine, heq, List.append_assoc]⟩
  rw [containsInit, decide_eq_false_iff_not] at h
  exact h hinf

def dummyFrame : Frame := ⟨[], 0, [], []⟩

/-- The frame `buildPyError` produces for a parsed stack line. -/
def cleanFrame (cs : CodeStore) (f : JSFrame) : Frame :=
  (rehydrateFrame cs f).getD dummyFrame

theorem cleanFrame_path (cs : CodeStore) (f : JSFrame)
    (h : (rehydrateFrame cs f).isSome = true) :
    (cleanFrame cs f).path = f.path := by
  unfold rehydrateFrame at h
  unfold cleanFrame rehydrateFrame
  cases hs : sourceLine cs f.path f.line with
  | none => rw [hs] at h; exact absurd h (fun hh => nomatch hh)
  | some code => rfl

/-- Well-formedness of one engine stack frame: parseable back from its
rendering, not a bootstrap or bridge-implementation frame, and re-hydratable
from the source store. -/
abbrev wfJSFrame (cs : CodeStore) (f : JSFrame) : Prop :=
  '@' ∉ f.func ∧ ':' ∉ f.path ∧ containsInit (renderJSLine f) = false ∧
  f.path ∉ maskedFiles ∧ (rehydrateFrame cs f).isSome = true

structure ScriptHop where
  lead : Option Str
  frames : List JSFrame
deriving DecidableEq

/-- The lines of `stack.split('\n')` for this hop. -/
def scriptHopLines (sh : ScriptHop) : List Str :=
  sh.lead.toList ++ sh.frames.map renderJSLine

abbrev wfScriptHop (cs : CodeStore) (sh : ScriptHop) : Prop :=
  sh.lead.all containsInit = true ∧ ∀ f ∈ sh.frames, wfJSFrame cs f

/-- One boundary crossing of the propagating error, innermost first. -/
inductive Hop where
  | host (tb : List Frame)
  | script (sh : ScriptHop)
deriving DecidableEq

/-- The frames one hop contributes to the reconstructed trace: a host hop its
filtered frames, a script hop its re-hydrated user frames reversed into
outermost-first order. -/
def hopClean (cs : CodeStore) : Hop → List Frame
  | .host tb => filteredTb tb
  | .script sh => (sh.frames.map (cleanFrame cs)).reverse

/-- The propagation of one error across a chain of boundary crossings
(innermost hop first): a host boundary prepends its filtered current frames
(the dispatcher's `newTb + oldTb`); a script boundary rebuilds the error with
`buildPyError`, which prepends the decoded script frames. -/
def chainError (store : ExcRegistry) (cs : CodeStore) :
    List Hop → PyExc → Option PyExc
  | [], e => some e
  | .host tb :: hops, e =>
      chainError store cs hops
        { e with oldTraceback := filteredTb tb ++ e.oldTraceback }
  | .script sh :: hops, e =>
      match buildPyError store cs (e.name.getD e.cls.clsName) e.message
          (scriptHopLines sh) e.oldTraceback with
      | Option.none => Option.none
      | some e2 => chainError store cs hops e2

theorem buildFramesLoop_frames (cs : CodeStore) :
    ∀ (frames : List JSFrame) (acc : List Frame),
      (∀ f ∈ frames, wfJSFrame cs f) →
      buildFramesLoop cs acc (frames.map renderJSLine)
        = some ((frames.map (cleanFrame cs)).reverse ++ acc) := by
  intro frames
  induction frames with
  | nil => intro acc h; rfl
  | cons f fs ih =>
      intro acc h
      obtain ⟨h1, h2, h3, h4, h5⟩ := h f (List.mem_cons_self f fs)
      rw [List.map_cons, buildFramesLoop, parseStackLine_render f h1 h2]
      obtain ⟨fr, hfr⟩ := Option.isSome_iff_exists.mp h5
      dsimp only
      rw [hfr]
      dsimp only
      rw [ih (fr :: acc) (fun g hg => h g (List.mem_cons_of_mem f hg))]
      simp [cleanFrame, hfr, List.reverse_cons, List.append_assoc]

/-- The Direction-B decode on one well-formed hop: drop the leading bootstrap
line, keep the user lines (none of which is a bootstrap line), parse,
relabel, re-hydrate, reverse, and prepend to the carried trace. -/
theorem buildPyError_script (store : ExcRegistry) (cs : CodeStore)
    (name message : Str) (sh : ScriptHop) (oldTb : List Frame)
    (hwf : wfScriptHop cs sh) :
    buildPyError store cs name message (scriptHopLines sh) oldTb
      = some { (match store.lookup name with
                | some cls => PyExc.mk cls message Option.none []
                | Option.none => mkJSError name message) with
               oldTraceback := (sh.frames.map (cleanFrame cs)).reverse ++ oldTb } := by
  obtain ⟨hlead, hframes⟩ := hwf
  have hNoInit : ∀ l ∈ sh.frames.map renderJSLine, containsInit l = false := by
    intro l hl
    rw [List.mem_map] at hl
    obtain ⟨f, hf, rfl⟩ := hl
    exact (hframes f hf).2.2.1
  have hdrop : dropLeadingInit (scriptHopLines sh)
      = sh.frames.map renderJSLine := by
    unfold scriptHopLines
    cases hl : sh.lead with
    | some l =>
        have : containsInit l = true := by
          rw [hl] at hlead
          exact hlead
        simp [dropLeadingInit, Option.toList, this]
    | none =>
        simp only [Option.toList, List.nil_append]
        cases hfs : sh.frames.map renderJSLine with
        | nil => rfl
        | cons l0 ls =>
            have : containsInit l0 = false :=
              hNoInit l0 (by rw [hfs]; exact List.mem_cons_self l0 ls)
            simp [dropLeadingInit, this]
  have htake : (sh.frames.map renderJSLine).takeWhile (fun l => !containsInit l)
      = sh.frames.map renderJSLine := by
    apply List.takeWhile_eq_self_iff.mpr
    intro l hl
    rw [hNoInit l hl]
    rfl
  unfold buildPyError
  rw [hdrop, htake, buildFramesLoop_frames cs sh.frames [] hframes,
    List.append_nil]

/-- C3: a script error decoded into a host exception gets its trace by
dropping a leading bootstrap frame, keeping user frames up to the first
remaining bootstrap frame, relabeling `%entry` as the synthetic global-scope
frame, re-hydrating each frame's source line from the SourceStore by
`(path, line)`, reversing into outermost-first order, and prepending to the
frames already carried; composed over an arbitrarily deep host/script chain,
the reconstructed trace is exactly the concatenation of every hop's own
frames — one frame per stack level — with zero bridge-internal frames (no
masked bridge file, no bootstrap script). -/
theorem cross_boundary_trace (store : ExcRegistry) (cs : CodeStore) :
    ∀ (hops : List Hop) (e0 : PyExc),
      (∀ sh, Hop.script sh ∈ hops → wfScriptHop cs sh) →
      (∀ tb, Hop.host tb ∈ hops → ∀ fr ∈ tb, fr.path ≠ INIT_SCRIPT_NAME) →
      ∃ eF, chainError store cs hops e0 = some eF ∧
        eF.oldTraceback
          = (hops.reverse.flatMap (hopClean cs)) ++ e0.oldTraceback ∧
        ∀ fr ∈ hops.reverse.flatMap (hopClean cs),
          fr.path ∉ maskedFiles ∧ fr.path ≠ INIT_SCRIPT_NAME := by
  intro hops
  induction hops with
  | nil =>
      intro e0 hs hh
      exact ⟨e0, rfl, by simp, by simp⟩
  | cons hop hops ih =>
      intro e0 hs hh
      have hsRest : ∀ sh, Hop.script sh ∈ hops → wfScriptHop cs sh :=
        fun sh hm => hs sh (List.mem_cons_of_mem hop hm)
      have hhRest : ∀ tb, Hop.host tb ∈ hops → ∀ fr ∈ tb,
          fr.path ≠ INIT_SCRIPT_NAME :=
        fun tb hm => hh tb (List.mem_cons_of_mem hop hm)
      have hflat : ∀ (e1 : PyExc),
          (hop :: hops).reverse.flatMap (hopClean cs)
          = hops.reverse.flatMap (hopClean cs) ++ hopClean cs hop := by
        intro e1
        rw [List.reverse_cons, List.flatMap_append]
        simp
      cases hop with
      | host tb =>
          obtain ⟨eF, hce, htr, hint⟩ := ih
            { e0 with oldTraceback := filteredTb tb ++ e0.oldTraceback }
            hsRest hhRest
          refine ⟨eF, hce, ?_, ?_⟩
          · rw [htr, hflat e0]
            simp [List.append_assoc, hopClean]
          · rw [hflat e0]
            intro fr hfr
            rw [List.mem_append] at hfr
            rcases hfr with hfr | hfr
            · exact hint fr hfr
            · rw [hopClean] at hfr
              unfold filteredTb at hfr
              rw [List.mem_filter] at hfr
              obtain ⟨hmem, hmask⟩ := hfr
              refine ⟨by simpa using hmask, ?_⟩
              exact hh tb (List.mem_cons_self _ _) fr hmem
      | script sh =>
          have hwf := hs sh (List.mem_cons_self _ _)
          have hbp := buildPyError_script store cs
            (e0.name.getD e0.cls.clsName) e0.message sh e0.oldTraceback hwf
          obtain ⟨eF, hce, htr, hint⟩ := ih
            { (match store.lookup (e0.name.getD e0.cls.clsName) with
               | some cls => PyExc.mk cls e0.message Option.none []
               | Option.none => mkJSError (e0.name.getD e0.cls.clsName) e0.message) with
              oldTraceback := (sh.frames.map (cleanFrame cs)).reverse
                ++ e0.oldTraceback }
            hsRest hhRest
          refine ⟨eF, ?_, ?_, ?_⟩
          · rw [chainError, hbp]
            exact hce
          · rw [htr, hflat e0]
            simp [List.append_assoc, hopClean]
          · rw [hflat e0]
            intro fr hfr
            rw [List.mem_append] at hfr
            rcases hfr with hfr | hfr
            · exact hint fr hfr
            · rw [hopClean, List.mem_reverse, List.mem_map] at hfr
              obtain ⟨f, hfmem, rfl⟩ := hfr
              obtain ⟨h1, h2, h3, h4, h5⟩ := hwf.2 f hfmem
              rw [cleanFrame_path cs f h5]
              exact ⟨h4, path_ne_init_of_not_containsInit f h3⟩

/-- C3 witness data: two eval'd sources in the store, and the chain
host→script B→host C→script D with the innermost raise in script D's host
callee. -/
def c3cs : CodeStore :=
  [("p".data, "aaa\nbbb\nccc".data), ("q".data, "zzz".data)]

def c3hops : List Hop :=
  [.script ⟨some "wrapper@_js_eval_init.js:12".data,
     [⟨"jsFunc".data, "p".data, 2⟩]⟩,
   .host [⟨"tests.py".data, 10, "pyFunc".data, "pyFunc3()".data⟩],
   .script ⟨some "wrapper@_js_eval_init.js:12".data,
     [⟨"%entry".data, "q".data, 1⟩]⟩]

def c3e0 : PyExc :=
  ⟨⟨3, "ValueError".data, false, false⟩, "boom".data, Option.none, []⟩

/-- C3 witness: across script-D → host-C → script-B, the reconstructed trace
has exactly one frame per level, outermost first, the wrapper lines trimmed,
`%entry` relabeled, and each source line re-hydrated from the store. -/
theorem cross_boundary_trace_witness :
    ∃ eF, chainError [] c3cs c3hops c3e0 = some eF ∧
      eF.oldTraceback
        = [⟨"q".data, 1, "<global scope>".data, "zzz".data⟩,
           ⟨"tests.py".data, 10, "pyFunc".data, "pyFunc3()".data⟩,
           ⟨"p".data, 2, "jsFunc".data, "bbb".data⟩] := by
  have hsc : ∀ sh, Hop.script sh ∈ c3hops → wfScriptHop c3cs sh := by
    intro sh hsh
    simp only [c3hops, List.mem_cons, List.mem_singleton,
      List.not_mem_nil, or_false] at hsh
    rcases hsh with h | h | h
    · cases h; decide
    · exact absurd h (fun hh => nomatch hh)
    · cases h; decide
  have hho : ∀ tb, Hop.host tb ∈ c3hops → ∀ fr ∈ tb,
      fr.path ≠ INIT_SCRIPT_NAME := by
    intro tb htb
    simp only [c3hops, List.mem_cons, List.mem_singleton,
      List.not_mem_nil, or_false] at htb
    rcases htb with h | h | h
    · exact absurd h (fun hh => nomatch hh)
    · cases h
      intro fr hfr
      simp only [List.mem_singleton] at hfr
      subst hfr
      decide
    · exact absurd h (fun hh => nomatch hh)
  obtain ⟨eF, h1, h2, h3⟩ := cross_boundary_trace [] c3cs c3hops c3e0 hsc hho
  refine ⟨eF, h1, ?_⟩
  rw [h2]
  decide

end JSEval
